import Mathlib

/-!
# The counter test bench (`task1/counter_tb.cpp`)

A shallow embedding of `main` of `counter_tb.cpp`: the cycle loop, the inner
half-cycle loop, the reset/enable assignments and the two-state sequencer
(`COUNTING` / `FREEZING`).

The module under test (`Vcounter`) and the simulation engine (`Verilated`)
are external: they are taken as a parameter `Engine σ`, an arbitrary
transition system with an `eval` step reading the three inputs, a `count`
output and a `gotFinish` flag.  The waveform writer is a log of events.
-/

namespace CounterTb

/-- The `enum State` of the test bench. -/
inductive State where
  | COUNTING
  | FREEZING
  deriving DecidableEq, Repr

/-- What the harness does to its collaborators, in program order.
`traceDump t clk rst en count` is `tfp->dump(t)`, with the signal values of
`top` that the writer samples at that moment; `evalStep clk rst en` is
`top->eval()` with the inputs in force. -/
inductive Event where
  | traceOpen (file : String)
  | traceDump (t : Nat) (clk rst en : Bool) (count : Nat)
  | evalStep (clk rst en : Bool)
  | traceClose
  deriving DecidableEq, Repr

/-- The external collaborators: the module instance with the engine's global
flag.  `init` is the state after `new Vcounter`, `eval s clk rst en` is
`top->eval()` with the given inputs, `count` reads `top->count`, and
`gotFinish` is `Verilated::gotFinish()`. -/
structure Engine (σ : Type) where
  init : σ
  eval : σ → Bool → Bool → Bool → σ
  count : σ → Nat
  gotFinish : σ → Bool

/-- The variables of `main`: the module (`top`, with its input members
`clk`, `rst`, `en` kept apart), the sequencer (`state`, `freeze_counter`)
and the log of the calls made so far. -/
structure Harness (σ : Type) where
  top : σ
  clk : Bool
  rst : Bool
  en : Bool
  state : State
  freeze_counter : Int
  trace : List Event

/-- How `main` ends: the variables at `exit` and the exit status. -/
structure Exit (σ : Type) where
  final : Harness σ
  status : Int

variable {σ : Type}

/-- Lines 13-26: `state = COUNTING`, `freeze_counter = 0`, the trace is
opened, `clk = 1`, `rst = 1`, `en = 0`. -/
def start (E : Engine σ) : Harness σ :=
  Harness.mk E.init true true false State.COUNTING 0 [Event.traceOpen "counter.vcd"]

/-- Lines 31-33, the body of the half-cycle loop:
`tfp->dump(2*i+clk); top->clk = !top->clk; top->eval();`. -/
def halfStep (E : Engine σ) (i clk : Nat) (h : Harness σ) : Harness σ :=
  let h1 := { h with
    trace := h.trace ++ [Event.traceDump (2 * i + clk) h.clk h.rst h.en (E.count h.top)] }
  let h2 := { h1 with clk := !h1.clk }
  { h2 with
    top := E.eval h2.top h2.clk h2.rst h2.en
    trace := h2.trace ++ [Event.evalStep h2.clk h2.rst h2.en] }

/-- Line 30, `for (clk=0; clk<2; clk++)`: `clkLoop E i n clk h` runs the `n`
iterations that remain when the loop variable is `clk`. -/
def clkLoop (E : Engine σ) (i : Nat) : Nat → Nat → Harness σ → Harness σ
  | 0, _, h => h
  | n + 1, clk, h => clkLoop E i n (clk + 1) (halfStep E i clk h)

/-- Lines 35-54: the `rst` and `en` assignments and the `switch (state)`.
`top->count` is read from the module as the second half-cycle step left it. -/
def update (E : Engine σ) (i : Nat) (h : Harness σ) : Harness σ :=
  let h1 := { h with rst := decide (i < 2) || decide (i = 15) }
  let h2 := { h1 with en := decide (i > 4) }
  match h2.state with
  | State.COUNTING =>
    let h3 :=
      if E.count h2.top = 9 then
        { h2 with state := State.FREEZING, freeze_counter := 3 }
      else h2
    { h3 with en := decide (i > 4) }
  | State.FREEZING =>
    let h3 := { h2 with en := false }
    let h4 := { h3 with freeze_counter := h3.freeze_counter - 1 }
    if h4.freeze_counter = 0 then { h4 with state := State.COUNTING } else h4

/-- Lines 30-54: one pass through the body of the cycle loop, up to (not
including) the `gotFinish` test. -/
def cycleBody (E : Engine σ) (i : Nat) (h : Harness σ) : Harness σ :=
  update E i (clkLoop E i 2 0 h)

/-- Line 58, `tfp->close()`. -/
def closeTrace (h : Harness σ) : Harness σ :=
  { h with trace := h.trace ++ [Event.traceClose] }

/-- Lines 28-59, `for (i=0; i<300; i++)` and what follows it:
`cycleLoop E n i h` runs the `n` cycles that remain when the loop variable
is `i`; `gotFinish` after a cycle exits at once, the end of the loop closes
the trace and exits. -/
def cycleLoop (E : Engine σ) : Nat → Nat → Harness σ → Exit σ
  | 0, _, h =>
    Exit.mk (closeTrace h) 0
  | n + 1, i, h =>
    let h1 := cycleBody E i h
    if E.gotFinish h1.top then Exit.mk h1 0 else cycleLoop E n (i + 1) h1

/-- The whole of `main`. -/
def main (E : Engine σ) : Exit σ :=
  cycleLoop E 300 0 (start E)

/-- The variables on entry to cycle `i` when no exit was taken before it:
the loop body applied `i` times to the initial variables. -/
def entry (E : Engine σ) : Nat → Harness σ
  | 0 => start E
  | i + 1 => cycleBody E i (entry E i)

/-- The variables on entry to the update (line 35) of cycle `i`. -/
def atUpdate (E : Engine σ) (i : Nat) : Harness σ :=
  clkLoop E i 2 0 (entry E i)

/-- The value of `top->count` that the update of cycle `i` observes. -/
def countAt (E : Engine σ) (i : Nat) : Nat :=
  E.count (atUpdate E i).top

/-- The answer of `Verilated::gotFinish()` at the end of cycle `i`. -/
def finishedAt (E : Engine σ) (i : Nat) : Bool :=
  E.gotFinish (entry E (i + 1)).top

/-- A sample module for instantiating the statements: an 8-bit counter that,
on a rising clock edge, clears on `rst` and otherwise increments on `en`.
It never raises the finish flag. -/
def sampleCounter : Engine Nat where
  init := 0
  eval := fun s clk rst en =>
    if clk then (if rst then 0 else if en then (s + 1) % 256 else s) else s
  count := fun s => s
  gotFinish := fun _ => false

/-- A sample harness state: counting, with the module showing `count = 9`. -/
def atNine : Harness Nat :=
  Harness.mk 9 true false true State.COUNTING 0 []

/-- A second sample module: the same counter, raising the finish flag once
its count is 3. -/
def sampleStopper : Engine Nat where
  init := 0
  eval := sampleCounter.eval
  count := fun s => s
  gotFinish := fun s => decide (s = 3)

/-- The timestamps of the dumps of a log, in order. -/
def dumpTimes : List Event → List Nat
  | [] => []
  | Event.traceDump t _ _ _ _ :: es => t :: dumpTimes es
  | _ :: es => dumpTimes es

/-- The number of `top->eval()` calls of a log. -/
def evalCount : List Event → Nat
  | [] => 0
  | Event.evalStep _ _ _ :: es => evalCount es + 1
  | _ :: es => evalCount es

/-- The number of `tfp->close()` calls of a log. -/
def closeCount : List Event → Nat
  | [] => 0
  | Event.traceClose :: es => closeCount es + 1
  | _ :: es => closeCount es

/-- The clock values that the `top->eval()` calls of a log see, in order. -/
def evalClks : List Event → List Bool
  | [] => []
  | Event.evalStep c _ _ :: es => c :: evalClks es
  | _ :: es => evalClks es

/-- Whether the update of cycle `i` takes the COUNTING->FREEZING transition:
COUNTING on entry to the update, FREEZING after it. -/
def transitionAt (E : Engine σ) (i : Nat) : Bool :=
  decide ((atUpdate E i).state = State.COUNTING) &&
    decide ((entry E (i + 1)).state = State.FREEZING)

/-- The number of COUNTING->FREEZING transitions taken in cycles `0..n-1`. -/
def transitions (E : Engine σ) (n : Nat) : Nat :=
  (List.range n).countP (transitionAt E)

/-- Whether the observed count reaches 9 at cycle `i`: it is 9 at the update
of cycle `i` and was not 9 at the update of cycle `i-1` (or `i = 0`). -/
def reachesNineAt (E : Engine σ) (i : Nat) : Bool :=
  decide (countAt E i = 9) && (decide (i = 0) || decide (countAt E (i - 1) ≠ 9))

/-- The number of times the observed count reaches 9 in cycles `0..n-1`. -/
def reachesNine (E : Engine σ) (n : Nat) : Nat :=
  (List.range n).countP (reachesNineAt E)

/-- A third sample module: its count output is stuck at 9. -/
def stuckAtNine : Engine Unit where
  init := ()
  eval := fun s _ _ _ => s
  count := fun _ => 9
  gotFinish := fun _ => false

/-- Whether a log has a dump before its first evaluation (false for a log
that ends first). -/
def dumpBeforeEval : List Event → Bool
  | [] => false
  | Event.traceDump _ _ _ _ _ :: _ => true
  | Event.evalStep _ _ _ :: _ => false
  | _ :: es => dumpBeforeEval es

/-- The number of evaluations of a log that no dump follows before the next
evaluation or the end of the log. -/
def undumpedEvals : List Event → Nat
  | [] => 0
  | Event.evalStep _ _ _ :: es => (if dumpBeforeEval es then 0 else 1) + undumpedEvals es
  | _ :: es => undumpedEvals es

/-- The count values shown by the dumps of a log, in order. -/
def dumpCounts : List Event → List Nat
  | [] => []
  | Event.traceDump _ _ _ _ m :: es => m :: dumpCounts es
  | _ :: es => dumpCounts es

/-- A sample harness state: freezing with two cycles to go, the module
showing `count = 4`. -/
def frozenTwo : Harness Nat :=
  Harness.mk 4 true true false State.FREEZING 2 []

/-- A sample harness state: freezing with two cycles to go, the module
showing `count = 9`. -/
def frozenAtNine : Harness Nat :=
  Harness.mk 9 true false false State.FREEZING 2 []

/-! ## The sequencer step -/

/-- C1. COUNTING step rule: from COUNTING, the update goes to FREEZING with
`freeze_counter = 3` when the observed count is 9, and stays in COUNTING with
`freeze_counter` unchanged otherwise, whatever `i`, `rst` and `en` are. -/
theorem counting_step_rule (E : Engine σ) (i : Nat) (h : Harness σ)
    (hs : h.state = State.COUNTING) :
    (E.count h.top = 9 →
      (update E i h).state = State.FREEZING ∧ (update E i h).freeze_counter = 3) ∧
    (E.count h.top ≠ 9 →
      (update E i h).state = State.COUNTING ∧
        (update E i h).freeze_counter = h.freeze_counter) := by
  constructor
  · intro hc
    simp [update, hs, hc]
  · intro hc
    simp [update, hs, hc]

/-- Witness of C1 at the sample state `atNine`, cycle 7. -/
theorem counting_step_rule_witness :
    atNine.state = State.COUNTING ∧ sampleCounter.count atNine.top = 9 ∧
      (update sampleCounter 7 atNine).state = State.FREEZING ∧
      (update sampleCounter 7 atNine).freeze_counter = 3 :=
  ⟨rfl, rfl, (counting_step_rule sampleCounter 7 atNine rfl).1 rfl⟩

/-- C2, as stated, fails: in the run of the sample counter the sequencer is in
COUNTING on entry to cycle 14, the update of cycle 14 observes `count = 9` and
takes the transition, and the `en` it leaves is true. -/
theorem freeze_not_immediate :
    (14 < 300 ∧ (atUpdate sampleCounter 14).state = State.COUNTING ∧
      countAt sampleCounter 14 = 9) ∧
    (entry sampleCounter 15).state = State.FREEZING ∧
    ¬ (entry sampleCounter 15).en = false := by
  decide

/-- C2, amended: when the update of cycle `i` takes the COUNTING->FREEZING
transition, the `en` it leaves is the settle-delay value `i > 4` (line 44
assigns it again after the transition); `en` is forced to false from the
update of the following cycle on. -/
theorem freeze_keeps_settle_delay (E : Engine σ) (i : Nat) (h : Harness σ)
    (hs : h.state = State.COUNTING) (hc : E.count h.top = 9) :
    (update E i h).state = State.FREEZING ∧
    (update E i h).en = decide (i > 4) ∧
    (4 < i → (update E i h).en = true) ∧
    (cycleBody E (i + 1) (update E i h)).en = false := by
  refine ⟨?_, ?_, ?_, ?_⟩
  · simp [update, hs, hc]
  · simp [update, hs, hc]
  · intro hi
    simp [update, hs, hc, hi]
  · simp [cycleBody, clkLoop, halfStep, update, hs, hc]

/-- Witness of the amended C2 at the sample state `atNine`, cycle 7. -/
theorem freeze_keeps_settle_delay_witness :
    (atNine.state = State.COUNTING ∧ sampleCounter.count atNine.top = 9) ∧
    (update sampleCounter 7 atNine).state = State.FREEZING ∧
    (update sampleCounter 7 atNine).en = decide (7 > 4) ∧
    (4 < 7 → (update sampleCounter 7 atNine).en = true) ∧
    (cycleBody sampleCounter (7 + 1) (update sampleCounter 7 atNine)).en = false :=
  ⟨⟨rfl, rfl⟩, freeze_keeps_settle_delay sampleCounter 7 atNine rfl rfl⟩

/-- C3. Freeze window length: after a COUNTING->FREEZING transition in the
update of cycle `i` (from the variables `h` on entry to that update), the
sequencer is in FREEZING on entry to cycles `i+1`, `i+2`, `i+3` and to their
updates, and not on entry to cycle `i` or `i+4`; each of the three updates
leaves `en = false`; the update of cycle `i+3` leaves COUNTING with
`freeze_counter = 0`. The module `E` is arbitrary, so is every count. -/
theorem freeze_window_length (E : Engine σ) (i : Nat) (h : Harness σ)
    (hs : h.state = State.COUNTING) (hc : E.count h.top = 9) :
    let h1 := update E i h
    let h2 := cycleBody E (i + 1) h1
    let h3 := cycleBody E (i + 2) h2
    let h4 := cycleBody E (i + 3) h3
    (h1.state = State.FREEZING ∧ h2.state = State.FREEZING ∧ h3.state = State.FREEZING) ∧
    ((clkLoop E (i + 1) 2 0 h1).state = State.FREEZING ∧
      (clkLoop E (i + 2) 2 0 h2).state = State.FREEZING ∧
      (clkLoop E (i + 3) 2 0 h3).state = State.FREEZING) ∧
    (h2.en = false ∧ h3.en = false ∧ h4.en = false) ∧
    (h1.freeze_counter = 3 ∧ h2.freeze_counter = 2 ∧ h3.freeze_counter = 1) ∧
    (h4.state = State.COUNTING ∧ h4.freeze_counter = 0) ∧
    (clkLoop E (i + 4) 2 0 h4).state = State.COUNTING := by
  simp [cycleBody, clkLoop, halfStep, update, hs, hc]

/-- Witness of C3 in the run of the sample counter: the transition of cycle
14 and the cycles 15 to 18. -/
theorem freeze_window_length_witness :
    ((atUpdate sampleCounter 14).state = State.COUNTING ∧ countAt sampleCounter 14 = 9) ∧
    (entry sampleCounter 16).state = State.FREEZING ∧
    (entry sampleCounter 18).state = State.COUNTING ∧
    (entry sampleCounter 18).en = false :=
  ⟨by decide,
    (freeze_window_length sampleCounter 14 (atUpdate sampleCounter 14)
      (by decide) (by decide)).1.2.1,
    (freeze_window_length sampleCounter 14 (atUpdate sampleCounter 14)
      (by decide) (by decide)).2.2.2.2.1.1,
    (freeze_window_length sampleCounter 14 (atUpdate sampleCounter 14)
      (by decide) (by decide)).2.2.1.2.2⟩

/-- C4. Enable rule: the `en` left by the update of cycle `i` is false when
`i <= 4`, false when the sequencer is in FREEZING on entry to the update, and
true when `i > 4` and the sequencer is in COUNTING on entry to the update. -/
theorem enable_rule (E : Engine σ) (i : Nat) (h : Harness σ) :
    (i ≤ 4 → (update E i h).en = false) ∧
    (h.state = State.FREEZING → (update E i h).en = false) ∧
    (4 < i → h.state = State.COUNTING → (update E i h).en = true) := by
  refine ⟨?_, ?_, ?_⟩
  · intro hi
    have hn : ¬ 4 < i := by omega
    unfold update
    cases hst : h.state
    · by_cases hc : E.count h.top = 9 <;> simp [hc, hn]
    · by_cases hf : h.freeze_counter - 1 = 0 <;> simp [hf]
  · intro hf
    unfold update
    simp [hf]
    split <;> simp
  · intro hi hcnt
    unfold update
    simp [hcnt, hi]

/-- Witness of C4: cycle 3 and cycle 7 from the sample state `atNine`, and
cycle 8 from the FREEZING state that cycle 7 leaves. -/
theorem enable_rule_witness :
    (3 ≤ 4 ∧ (update sampleCounter 3 atNine).en = false) ∧
    ((update sampleCounter 7 atNine).state = State.FREEZING ∧
      (update sampleCounter 8 (update sampleCounter 7 atNine)).en = false) ∧
    (4 < 7 ∧ atNine.state = State.COUNTING ∧ (update sampleCounter 7 atNine).en = true) :=
  ⟨⟨by decide, (enable_rule sampleCounter 3 atNine).1 (by decide)⟩,
    ⟨rfl, (enable_rule sampleCounter 8 (update sampleCounter 7 atNine)).2.1 rfl⟩,
    ⟨by decide, rfl, (enable_rule sampleCounter 7 atNine).2.2 (by decide) rfl⟩⟩

/-- C5. Reset schedule: the `rst` written in cycle `i`, after its two
half-cycle steps, is true exactly when `i` is 0, 1 or 15, whatever the
variables were before. -/
theorem reset_schedule (E : Engine σ) (i : Nat) (h : Harness σ) :
    ((update E i h).rst = true ↔ i = 0 ∨ i = 1 ∨ i = 15) ∧
    ((cycleBody E i h).rst = true ↔ i = 0 ∨ i = 1 ∨ i = 15) := by
  have key : ∀ g : Harness σ, ((update E i g).rst = true ↔ i = 0 ∨ i = 1 ∨ i = 15) := by
    intro g
    have hr : (update E i g).rst = (decide (i < 2) || decide (i = 15)) := by
      unfold update
      cases hst : g.state
      · by_cases hc : E.count g.top = 9 <;> simp [hc]
      · by_cases hf : g.freeze_counter - 1 = 0 <;> simp [hf]
    rw [hr]
    simp
    omega
  exact ⟨key h, key _⟩

/-! ## The loops and the log -/

theorem dumpTimes_append (xs ys : List Event) :
    dumpTimes (xs ++ ys) = dumpTimes xs ++ dumpTimes ys := by
  induction xs with
  | nil => rfl
  | cons x xs ih => cases x <;> simp [dumpTimes, ih]

theorem evalCount_append (xs ys : List Event) :
    evalCount (xs ++ ys) = evalCount xs + evalCount ys := by
  induction xs with
  | nil => simp [evalCount]
  | cons x xs ih => cases x <;> simp [evalCount, ih]; omega

theorem closeCount_append (xs ys : List Event) :
    closeCount (xs ++ ys) = closeCount xs + closeCount ys := by
  induction xs with
  | nil => simp [closeCount]
  | cons x xs ih => cases x <;> simp [closeCount, ih]; omega

theorem closeTrace_dumpTimes (h : Harness σ) :
    dumpTimes (closeTrace h).trace = dumpTimes h.trace := by
  simp [closeTrace, dumpTimes_append, dumpTimes]

theorem closeTrace_evalCount (h : Harness σ) :
    evalCount (closeTrace h).trace = evalCount h.trace := by
  simp [closeTrace, evalCount_append, evalCount]

theorem closeTrace_closeCount (h : Harness σ) :
    closeCount (closeTrace h).trace = closeCount h.trace + 1 := by
  simp [closeTrace, closeCount_append, closeCount]

/-- What one half-cycle step appends to the log. -/
theorem halfStep_trace (E : Engine σ) (i p : Nat) (h : Harness σ) :
    (halfStep E i p h).trace =
      h.trace ++ [Event.traceDump (2 * i + p) h.clk h.rst h.en (E.count h.top),
        Event.evalStep (!h.clk) h.rst h.en] := by
  simp [halfStep]

/-- The inner loop is two half-cycle steps, with `clk = 0` then `clk = 1`. -/
theorem clkLoop_two (E : Engine σ) (i : Nat) (h : Harness σ) :
    clkLoop E i 2 0 h = halfStep E i 1 (halfStep E i 0 h) := rfl

/-- The update writes `rst`, `en`, `state` and `freeze_counter` only. -/
theorem update_frame (E : Engine σ) (i : Nat) (h : Harness σ) :
    (update E i h).trace = h.trace ∧ (update E i h).top = h.top ∧
      (update E i h).clk = h.clk := by
  unfold update
  cases hst : h.state
  · by_cases hc : E.count h.top = 9 <;> simp [hc]
  · by_cases hf : h.freeze_counter - 1 = 0 <;> simp [hf]

/-- What one cycle appends to the log: the dump and the evaluation of each
of the two half-cycle steps, the clock going to `!clk` and back. -/
theorem cycleBody_trace (E : Engine σ) (i : Nat) (h : Harness σ) :
    (cycleBody E i h).trace =
      h.trace ++ [Event.traceDump (2 * i) h.clk h.rst h.en (E.count h.top),
        Event.evalStep (!h.clk) h.rst h.en,
        Event.traceDump (2 * i + 1) (!h.clk) h.rst h.en
          (E.count (E.eval h.top (!h.clk) h.rst h.en)),
        Event.evalStep h.clk h.rst h.en] := by
  rw [cycleBody, (update_frame E i _).1, clkLoop_two, halfStep_trace, halfStep_trace]
  simp [halfStep]

theorem entry_dumpTimes (E : Engine σ) (n : Nat) :
    dumpTimes (entry E n).trace = List.range (2 * n) := by
  induction n with
  | zero => rfl
  | succ n ih =>
    rw [entry, cycleBody_trace, dumpTimes_append, ih]
    have h2 : 2 * (n + 1) = 2 * n + 1 + 1 := by ring
    rw [h2, List.range_succ, List.range_succ]
    simp [dumpTimes]

theorem entry_evalCount (E : Engine σ) (n : Nat) :
    evalCount (entry E n).trace = 2 * n := by
  induction n with
  | zero => rfl
  | succ n ih =>
    rw [entry, cycleBody_trace, evalCount_append, ih]
    simp [evalCount]
    omega

theorem entry_closeCount (E : Engine σ) (n : Nat) :
    closeCount (entry E n).trace = 0 := by
  induction n with
  | zero => rfl
  | succ n ih =>
    rw [entry, cycleBody_trace, closeCount_append, ih]
    simp [closeCount]

/-- The cycle loop when the finish flag stays down: all remaining cycles run,
then the trace is closed. -/
theorem cycleLoop_run (E : Engine σ) (n : Nat) :
    ∀ i, (∀ j, i ≤ j → j < i + n → finishedAt E j = false) →
      cycleLoop E n i (entry E i) =
        Exit.mk (closeTrace (entry E (i + n))) 0 := by
  induction n with
  | zero => intro i _; rfl
  | succ n ih =>
    intro i hfin
    have h0 : E.gotFinish (cycleBody E i (entry E i)).top = false :=
      hfin i (Nat.le_refl i) (by omega)
    have h1 := ih (i + 1) (fun j hj1 hj2 => hfin j (by omega) (by omega))
    have h2 : i + 1 + n = i + (n + 1) := by omega
    rw [h2] at h1
    simp only [cycleLoop, h0]
    exact h1

/-- The cycle loop when the finish flag is first up at the end of cycle `k`:
the run exits there, with the variables as cycle `k` left them. -/
theorem cycleLoop_stop (E : Engine σ) (k n : Nat) :
    ∀ i, i ≤ k → k < i + n → (∀ j, i ≤ j → j < k → finishedAt E j = false) →
      finishedAt E k = true →
      cycleLoop E n i (entry E i) = Exit.mk (entry E (k + 1)) 0 := by
  induction n with
  | zero => intro i h1 h2; omega
  | succ n ih =>
    intro i hik hkn hfin hk
    by_cases hi : i = k
    · subst hi
      have h0 : E.gotFinish (cycleBody E i (entry E i)).top = true := hk
      simp only [cycleLoop, h0]
      rfl
    · have h0 : E.gotFinish (cycleBody E i (entry E i)).top = false :=
        hfin i (Nat.le_refl i) (by omega)
      have h1 := ih (i + 1) (by omega) (by omega)
        (fun j hj1 hj2 => hfin j (by omega) hj2) hk
      simp only [cycleLoop, h0]
      exact h1

theorem evalClks_append (xs ys : List Event) :
    evalClks (xs ++ ys) = evalClks xs ++ evalClks ys := by
  induction xs with
  | nil => rfl
  | cons x xs ih => cases x <;> simp [evalClks, ih]

/-- The clock is 1 on entry to every cycle. -/
theorem entry_clk (E : Engine σ) (n : Nat) : (entry E n).clk = true := by
  induction n with
  | zero => rfl
  | succ n ih =>
    rw [entry, cycleBody, (update_frame E n _).2.2, clkLoop_two]
    simp [halfStep, ih]

/-- C6. Trace timestamps on a full run: when the finish flag is down at the
end of each of the 300 cycles, `main` runs the loop body 300 times and closes
the trace; each half-cycle step appends exactly one dump, stamped
`2*i + clk`, and one evaluation; the dumped timestamps are 0,1,...,599 and
there are 600 evaluations. -/
theorem full_run_timestamps (E : Engine σ)
    (hfin : ∀ k, k < 300 → finishedAt E k = false) :
    (main E).final = closeTrace (entry E 300) ∧
    (∀ i p (h : Harness σ), (halfStep E i p h).trace =
      h.trace ++ [Event.traceDump (2 * i + p) h.clk h.rst h.en (E.count h.top),
        Event.evalStep (!h.clk) h.rst h.en]) ∧
    (∀ i (h : Harness σ), cycleBody E i h = update E i (halfStep E i 1 (halfStep E i 0 h))) ∧
    dumpTimes (main E).final.trace = List.range 600 ∧
    (dumpTimes (main E).final.trace).length = 600 ∧
    List.Pairwise (fun a b => a < b) (dumpTimes (main E).final.trace) ∧
    evalCount (main E).final.trace = 600 := by
  have hrun := cycleLoop_run E 300 0 (fun j _ hj => hfin j (by omega))
  have hmain : main E = Exit.mk (closeTrace (entry E 300)) 0 := by
    rw [main]
    exact hrun
  have hd : dumpTimes (main E).final.trace = List.range 600 := by
    rw [hmain, closeTrace_dumpTimes, entry_dumpTimes]
  refine ⟨by rw [hmain], halfStep_trace E, fun i h => rfl, hd, ?_, ?_, ?_⟩
  · rw [hd, List.length_range]
  · rw [hd]
    exact List.pairwise_lt_range 600
  · rw [hmain, closeTrace_evalCount, entry_evalCount]

/-- Witness of C6: the sample counter never raises the finish flag. -/
theorem full_run_timestamps_witness :
    (∀ k, k < 300 → finishedAt sampleCounter k = false) ∧
    dumpTimes (main sampleCounter).final.trace = List.range 600 ∧
    evalCount (main sampleCounter).final.trace = 600 :=
  ⟨fun _ _ => rfl,
    (full_run_timestamps sampleCounter (fun _ _ => rfl)).2.2.2.1,
    (full_run_timestamps sampleCounter (fun _ _ => rfl)).2.2.2.2.2.2⟩

/-- C7. Early termination at a cycle boundary: when the finish flag is down
at the end of cycles `0..k-1` and up at the end of cycle `k < 300`, `main`
exits with status 0 with the variables exactly as the body of cycle `k` left
them (both half-cycle steps and the update done, nothing of cycle `k+1`);
the dumped timestamps are `0,1,...,2k+1`. -/
theorem early_exit_at_boundary (E : Engine σ) (k : Nat) (hk : k < 300)
    (hbefore : ∀ j, j < k → finishedAt E j = false) (hat : finishedAt E k = true) :
    (main E).status = 0 ∧
    (main E).final = cycleBody E k (entry E k) ∧
    (main E).final = update E k (halfStep E k 1 (halfStep E k 0 (entry E k))) ∧
    dumpTimes (main E).final.trace = List.range (2 * k + 2) ∧
    (dumpTimes (main E).final.trace).length = 2 * (k + 1) ∧
    evalCount (main E).final.trace = 2 * (k + 1) := by
  have hmain : main E = Exit.mk (entry E (k + 1)) 0 := by
    rw [main]
    exact cycleLoop_stop E k 300 0 (Nat.zero_le k) (by omega)
      (fun j _ hj => hbefore j hj) hat
  have hd : dumpTimes (main E).final.trace = List.range (2 * k + 2) := by
    rw [hmain]
    exact entry_dumpTimes E (k + 1)
  refine ⟨by rw [hmain], by rw [hmain]; rfl, by rw [hmain]; rfl, hd, ?_, ?_⟩
  · rw [hd, List.length_range]
    ring
  · rw [hmain]
    exact entry_evalCount E (k + 1)

/-- Witness of C7: the sample stopper raises the flag at the end of cycle 8. -/
theorem early_exit_at_boundary_witness :
    ((∀ j, j < 8 → finishedAt sampleStopper j = false) ∧
      finishedAt sampleStopper 8 = true) ∧
    (main sampleStopper).status = 0 ∧
    dumpTimes (main sampleStopper).final.trace = List.range (2 * 8 + 2) :=
  ⟨by decide,
    (early_exit_at_boundary sampleStopper 8 (by decide) (by decide) (by decide)).1,
    (early_exit_at_boundary sampleStopper 8 (by decide) (by decide) (by decide)).2.2.2.1⟩

theorem cycleLoop_status (E : Engine σ) (n : Nat) :
    ∀ i (h : Harness σ), (cycleLoop E n i h).status = 0 := by
  induction n with
  | zero => intro i h; rfl
  | succ n ih =>
    intro i h
    simp only [cycleLoop]
    split
    · rfl
    · exact ih _ _

/-- C8. Close and exit status: `main` always ends, with status 0 and at most
600 dumps (300 cycles); when the finish flag is down at the end of all 300
cycles the log ends with its only close, after every dump; when the flag is
up at the end of some cycle the log has no close. -/
theorem close_and_exit_status (E : Engine σ) :
    (main E).status = 0 ∧
    (dumpTimes (main E).final.trace).length ≤ 600 ∧
    ((∀ k, k < 300 → finishedAt E k = false) →
      closeCount (main E).final.trace = 1 ∧
      ∃ before, (main E).final.trace = before ++ [Event.traceClose] ∧
        closeCount before = 0 ∧ dumpTimes before = dumpTimes (main E).final.trace) ∧
    ((∃ k, k < 300 ∧ finishedAt E k = true) →
      closeCount (main E).final.trace = 0) := by
  have hstop : ∀ k, k < 300 → finishedAt E k = true →
      ∃ m, m < 300 ∧ main E = Exit.mk (entry E (m + 1)) 0 := by
    intro k hk hat
    have hex : ∃ m, m < 300 ∧ finishedAt E m = true := ⟨k, hk, hat⟩
    refine ⟨Nat.find hex, (Nat.find_spec hex).1, ?_⟩
    rw [main]
    refine cycleLoop_stop E (Nat.find hex) 300 0 (Nat.zero_le _)
      (by have := (Nat.find_spec hex).1; omega) ?_ (Nat.find_spec hex).2
    intro j _ hj
    have hmin := Nat.find_min hex hj
    have hj300 : j < 300 := by have := (Nat.find_spec hex).1; omega
    cases hf : finishedAt E j
    · rfl
    · exact absurd ⟨hj300, hf⟩ hmin
  have hrun : (∀ k, k < 300 → finishedAt E k = false) →
      main E = Exit.mk (closeTrace (entry E 300)) 0 := by
    intro hfin
    rw [main]
    exact cycleLoop_run E 300 0 (fun j _ hj => hfin j (by omega))
  refine ⟨cycleLoop_status E 300 0 (start E), ?_, ?_, ?_⟩
  · by_cases hex : ∃ k, k < 300 ∧ finishedAt E k = true
    · obtain ⟨k, hk, hat⟩ := hex
      obtain ⟨m, hm, hmain⟩ := hstop k hk hat
      rw [hmain, entry_dumpTimes, List.length_range]
      omega
    · have hfin : ∀ k, k < 300 → finishedAt E k = false := by
        intro k hk
        cases hf : finishedAt E k
        · rfl
        · exact absurd ⟨k, hk, hf⟩ hex
      rw [hrun hfin, closeTrace_dumpTimes, entry_dumpTimes, List.length_range]
  · intro hfin
    rw [hrun hfin]
    refine ⟨?_, (entry E 300).trace, rfl, entry_closeCount E 300, ?_⟩
    · rw [closeTrace_closeCount, entry_closeCount]
    · rw [closeTrace_dumpTimes]
  · rintro ⟨k, hk, hat⟩
    obtain ⟨m, _, hmain⟩ := hstop k hk hat
    rw [hmain]
    exact entry_closeCount E (m + 1)

/-- Witness of C8: the sample counter closes once, the sample stopper never. -/
theorem close_and_exit_status_witness :
    ((∀ k, k < 300 → finishedAt sampleCounter k = false) ∧
      closeCount (main sampleCounter).final.trace = 1) ∧
    ((∃ k, k < 300 ∧ finishedAt sampleStopper k = true) ∧
      closeCount (main sampleStopper).final.trace = 0) :=
  ⟨⟨fun _ _ => rfl, ((close_and_exit_status sampleCounter).2.2.1 (fun _ _ => rfl)).1⟩,
    ⟨⟨8, by decide, by decide⟩,
      (close_and_exit_status sampleStopper).2.2.2 ⟨8, by decide, by decide⟩⟩⟩

/-- C9. Clock alternation: every half-cycle step inverts `clk`; from the
initial `clk = 1`, in every cycle `clk` is 1 on entry, 0 after the first
half-cycle step and 1 after the second, so 1 at every cycle boundary; the
evaluations of a cycle see `clk = 0` then `clk = 1`. -/
theorem clock_alternation (E : Engine σ) :
    (start E).clk = true ∧
    (∀ i p (h : Harness σ), (halfStep E i p h).clk = !h.clk) ∧
    (∀ i (h : Harness σ), (update E i h).clk = h.clk) ∧
    (∀ i, (entry E i).clk = true ∧
      (halfStep E i 0 (entry E i)).clk = false ∧
      (halfStep E i 1 (halfStep E i 0 (entry E i))).clk = true ∧
      (cycleBody E i (entry E i)).clk = true) ∧
    (∀ n, evalClks (entry E n).trace =
      (List.range (2 * n)).map (fun j => decide (j % 2 = 1))) := by
  refine ⟨rfl, fun i p h => by simp [halfStep], fun i h => (update_frame E i h).2.2, ?_, ?_⟩
  · intro i
    have h0 := entry_clk E i
    have h1 := entry_clk E (i + 1)
    refine ⟨h0, by simp [halfStep, h0], by simp [halfStep, h0], h1⟩
  · intro n
    induction n with
    | zero => rfl
    | succ n ih =>
      have h2 : 2 * (n + 1) = 2 * n + 1 + 1 := by ring
      rw [entry, cycleBody_trace, evalClks_append, ih, h2, List.range_succ, List.range_succ]
      have hc := entry_clk E n
      have hp : (2 * n + 1) % 2 = 1 := by omega
      have hq : (2 * n) % 2 = 0 := by omega
      simp [evalClks, hc, hp, hq]

/-! ## Transitions and the observed count -/

/-- The half-cycle steps leave the sequencer alone. -/
theorem atUpdate_seq (E : Engine σ) (i : Nat) :
    (atUpdate E i).state = (entry E i).state ∧
      (atUpdate E i).freeze_counter = (entry E i).freeze_counter :=
  ⟨rfl, rfl⟩

theorem entry_succ (E : Engine σ) (i : Nat) :
    entry E (i + 1) = update E i (atUpdate E i) := rfl

/-- The sequencer part of the update, by cases on the state on entry. -/
theorem update_seq (E : Engine σ) (i : Nat) (h : Harness σ) :
    (h.state = State.COUNTING → E.count h.top = 9 →
      (update E i h).state = State.FREEZING ∧ (update E i h).freeze_counter = 3) ∧
    (h.state = State.COUNTING → E.count h.top ≠ 9 →
      (update E i h).state = State.COUNTING) ∧
    (h.state = State.FREEZING → h.freeze_counter = 1 →
      (update E i h).state = State.COUNTING) ∧
    (h.state = State.FREEZING → h.freeze_counter ≠ 1 →
      (update E i h).state = State.FREEZING ∧
        (update E i h).freeze_counter = h.freeze_counter - 1) := by
  refine ⟨?_, ?_, ?_, ?_⟩
  · intro hs hc
    simp [update, hs, hc]
  · intro hs hc
    simp [update, hs, hc]
  · intro hs hf
    simp [update, hs, hf]
  · intro hs hf
    have hne : ¬ h.freeze_counter - 1 = 0 := by omega
    simp [update, hs, hne]

/-- A transition is taken in cycle `i` exactly when its update starts in
COUNTING and observes `count = 9`. -/
theorem transitionAt_iff (E : Engine σ) (i : Nat) :
    transitionAt E i = true ↔ (entry E i).state = State.COUNTING ∧ countAt E i = 9 := by
  have hseq := update_seq E i (atUpdate E i)
  rw [(atUpdate_seq E i).1] at hseq
  simp only [transitionAt, Bool.and_eq_true, decide_eq_true_eq, (atUpdate_seq E i).1,
    entry_succ]
  constructor
  · rintro ⟨hs, hf⟩
    refine ⟨hs, ?_⟩
    by_contra hc
    have := hseq.2.1 hs hc
    rw [this] at hf
    exact State.noConfusion hf
  · rintro ⟨hs, hc⟩
    exact ⟨hs, (hseq.1 hs hc).1⟩

/-- While FREEZING, the count was 9 at the update that started the window,
one to three cycles back. -/
theorem freezing_origin (E : Engine σ) (i : Nat) :
    (entry E i).state = State.FREEZING →
      ∃ d, 1 ≤ d ∧ d ≤ 3 ∧ d ≤ i ∧ (entry E i).freeze_counter = 4 - (d : Int) ∧
        countAt E (i - d) = 9 := by
  induction i with
  | zero => intro h; exact State.noConfusion h
  | succ i ih =>
    intro hf
    have hseq := update_seq E i (atUpdate E i)
    rw [(atUpdate_seq E i).1, (atUpdate_seq E i).2, ← entry_succ] at hseq
    cases hs : (entry E i).state with
    | COUNTING =>
      by_cases hc : countAt E i = 9
      · refine ⟨1, by omega, by omega, by omega, ?_, ?_⟩
        · rw [(hseq.1 hs hc).2]
          norm_num
        · simpa using hc
      · rw [hseq.2.1 hs hc] at hf
        exact State.noConfusion hf
    | FREEZING =>
      obtain ⟨d, hd1, hd3, hdi, hfc, hc⟩ := ih hs
      by_cases h1 : (entry E i).freeze_counter = 1
      · rw [hseq.2.2.1 hs h1] at hf
        exact State.noConfusion hf
      · have hd : d ≤ 2 := by omega
        refine ⟨d + 1, by omega, by omega, by omega, ?_, ?_⟩
        · rw [(hseq.2.2.2 hs h1).2, hfc]
          push_cast
          ring
        · have he : i + 1 - (d + 1) = i - d := by omega
          rw [he]
          exact hc

set_option maxRecDepth 100000

/-- C10, as stated, fails: with the count stuck at 9 the run takes 75
transitions, while the count reaches 9 once (at cycle 0). -/
theorem one_transition_per_reach_fails :
    (∀ k, k < 300 → finishedAt stuckAtNine k = false) ∧
    transitions stuckAtNine 300 = 75 ∧ reachesNine stuckAtNine 300 = 1 ∧
    transitions stuckAtNine 300 ≠ reachesNine stuckAtNine 300 := by
  refine ⟨fun _ _ => rfl, ?_, ?_, ?_⟩ <;> decide

/-- C10, amended: a transition is taken in cycle `i` exactly when the update
of cycle `i` starts in COUNTING and observes `count = 9`; and when the
updates that observe 9 within the first `n` cycles are at least 4 cycles
apart, the number of transitions taken in those cycles equals the number of
times the observed count reaches 9. -/
theorem one_transition_per_spaced_reach (E : Engine σ) (n : Nat)
    (hsep : ∀ j, j < n → ∀ i, i < j → countAt E i = 9 → countAt E j = 9 → i + 4 ≤ j) :
    (∀ i, transitionAt E i = true ↔
      (entry E i).state = State.COUNTING ∧ countAt E i = 9) ∧
    (∀ i, i < n → transitionAt E i = reachesNineAt E i) ∧
    transitions E n = reachesNine E n := by
  have hpt : ∀ i, i < n → transitionAt E i = reachesNineAt E i := by
    intro i hi
    rw [Bool.eq_iff_iff, transitionAt_iff]
    simp only [reachesNineAt, Bool.and_eq_true, Bool.or_eq_true, decide_eq_true_eq]
    constructor
    · rintro ⟨_, hc⟩
      refine ⟨hc, ?_⟩
      by_cases h0 : i = 0
      · exact Or.inl h0
      · refine Or.inr (fun hp => ?_)
        have := hsep i hi (i - 1) (by omega) hp hc
        omega
    · rintro ⟨hc, _⟩
      refine ⟨?_, hc⟩
      cases hs : (entry E i).state with
      | COUNTING => rfl
      | FREEZING =>
        obtain ⟨d, hd1, hd3, hdi, _, hcd⟩ := freezing_origin E i hs
        have := hsep i hi (i - d) (by omega) hcd hc
        omega
  refine ⟨transitionAt_iff E, hpt, ?_⟩
  rw [transitions, reachesNine]
  apply List.countP_congr
  intro i hi
  rw [hpt i (List.mem_range.mp hi)]

/-- Witness of the amended C10: the first 20 cycles of the sample counter,
where the count is 9 at cycle 14 only. -/
theorem one_transition_per_spaced_reach_witness :
    (∀ j, j < 20 → ∀ i, i < j → countAt sampleCounter i = 9 →
      countAt sampleCounter j = 9 → i + 4 ≤ j) ∧
    transitions sampleCounter 20 = reachesNine sampleCounter 20 :=
  ⟨by decide, (one_transition_per_spaced_reach sampleCounter 20 (by decide)).2.2⟩

/-! ## Dumps and evaluations -/

/-- How `main` ends: at the first cycle boundary where the finish flag is up,
or after 300 cycles and the close. -/
theorem main_cases (E : Engine σ) :
    (∃ m, m < 300 ∧ finishedAt E m = true ∧ main E = Exit.mk (entry E (m + 1)) 0) ∨
    ((∀ k, k < 300 → finishedAt E k = false) ∧
      main E = Exit.mk (closeTrace (entry E 300)) 0) := by
  by_cases hex : ∃ m, m < 300 ∧ finishedAt E m = true
  · left
    refine ⟨Nat.find hex, (Nat.find_spec hex).1, (Nat.find_spec hex).2, ?_⟩
    rw [main]
    refine cycleLoop_stop E (Nat.find hex) 300 0 (Nat.zero_le _)
      (by have := (Nat.find_spec hex).1; omega) ?_ (Nat.find_spec hex).2
    intro j _ hj
    have hmin := Nat.find_min hex hj
    have hj300 : j < 300 := by have := (Nat.find_spec hex).1; omega
    cases hf : finishedAt E j
    · rfl
    · exact absurd ⟨hj300, hf⟩ hmin
  · right
    have hfin : ∀ k, k < 300 → finishedAt E k = false := by
      intro k hk
      cases hf : finishedAt E k
      · rfl
      · exact absurd ⟨k, hk, hf⟩ hex
    refine ⟨hfin, ?_⟩
    rw [main]
    exact cycleLoop_run E 300 0 (fun j _ hj => hfin j (by omega))

/-- The log of a cycle with the clock written out: 1 on entry, so the two
evaluations see 0 then 1. -/
theorem entry_trace_succ (E : Engine σ) (i : Nat) :
    (entry E (i + 1)).trace =
      (entry E i).trace ++
        [Event.traceDump (2 * i) true (entry E i).rst (entry E i).en
            (E.count (entry E i).top),
          Event.evalStep false (entry E i).rst (entry E i).en,
          Event.traceDump (2 * i + 1) false (entry E i).rst (entry E i).en
            (E.count (E.eval (entry E i).top false (entry E i).rst (entry E i).en)),
          Event.evalStep true (entry E i).rst (entry E i).en] := by
  rw [entry, cycleBody_trace, entry_clk]
  rfl

/-- Once a dump follows, no evaluation of the log of complete cycles is
left without a dump. -/
theorem entry_undumped_then_dump (E : Engine σ) (n : Nat) :
    ∀ t a b c m zs,
      undumpedEvals ((entry E n).trace ++ Event.traceDump t a b c m :: zs) =
        undumpedEvals zs := by
  induction n with
  | zero =>
    intro t a b c m zs
    simp [entry, start, undumpedEvals]
  | succ n ih =>
    intro t a b c m zs
    rw [entry_trace_succ, List.append_assoc, List.cons_append, ih]
    simp [undumpedEvals, dumpBeforeEval]

/-- After at least one complete cycle, exactly one evaluation has no dump
after it, with or without the close. -/
theorem entry_undumped (E : Engine σ) (n : Nat) :
    undumpedEvals (entry E (n + 1)).trace = 1 ∧
      undumpedEvals (closeTrace (entry E (n + 1))).trace = 1 := by
  constructor
  · rw [entry_trace_succ, entry_undumped_then_dump]
    simp [undumpedEvals, dumpBeforeEval]
  · rw [closeTrace]
    simp only []
    rw [entry_trace_succ, List.append_assoc, List.cons_append, entry_undumped_then_dump]
    simp [undumpedEvals, dumpBeforeEval]

/-- In every run exactly one evaluation has no dump after it. -/
theorem main_undumped (E : Engine σ) : undumpedEvals (main E).final.trace = 1 := by
  rcases main_cases E with ⟨m, _, _, hmain⟩ | ⟨_, hmain⟩
  · rw [hmain]
    exact (entry_undumped E m).1
  · rw [hmain]
    exact (entry_undumped E 299).2

/-- The log of complete cycles ends with an evaluation at `clk = 1`. -/
theorem entry_ends_with_eval (E : Engine σ) (n : Nat) :
    ∃ before r e, (entry E (n + 1)).trace = before ++ [Event.evalStep true r e] := by
  refine ⟨(entry E n).trace ++
    [Event.traceDump (2 * n) true (entry E n).rst (entry E n).en (E.count (entry E n).top),
      Event.evalStep false (entry E n).rst (entry E n).en,
      Event.traceDump (2 * n + 1) false (entry E n).rst (entry E n).en
        (E.count (E.eval (entry E n).top false (entry E n).rst (entry E n).en))],
    (entry E n).rst, (entry E n).en, ?_⟩
  rw [entry_trace_succ, List.append_assoc]
  rfl

/-- Every run ends with an evaluation, followed by at most the close. -/
theorem main_ends_with_eval (E : Engine σ) :
    ∃ before r e, (main E).final.trace = before ++ [Event.evalStep true r e] ∨
      (main E).final.trace = before ++ [Event.evalStep true r e, Event.traceClose] := by
  rcases main_cases E with ⟨m, _, _, hmain⟩ | ⟨_, hmain⟩
  · obtain ⟨before, r, e, hb⟩ := entry_ends_with_eval E m
    exact ⟨before, r, e, Or.inl (by rw [hmain]; exact hb)⟩
  · obtain ⟨before, r, e, hb⟩ := entry_ends_with_eval E 299
    refine ⟨before, r, e, Or.inr ?_⟩
    rw [hmain]
    show (entry E (299 + 1)).trace ++ [Event.traceClose] = _
    rw [hb, List.append_assoc]
    rfl

/-- C11, as stated, fails: in the run of the sample counter, and in the run
of the sample stopper (which exits at the end of cycle 8), one evaluation has
no dump after it; the stopper's last evaluation leaves `count = 3`, the log
ends with that evaluation, and no dump of the log shows 3. -/
theorem last_evaluation_not_dumped :
    undumpedEvals (main sampleCounter).final.trace ≠ 0 ∧
    undumpedEvals (main sampleStopper).final.trace ≠ 0 ∧
    (main sampleStopper).final.trace.getLast? = some (Event.evalStep true false true) ∧
    sampleStopper.count (main sampleStopper).final.top = 3 ∧
    3 ∉ dumpCounts (main sampleStopper).final.trace := by
  refine ⟨?_, ?_, ?_, ?_, ?_⟩
  · rw [main_undumped]
    decide
  · rw [main_undumped]
    decide
  · decide
  · decide
  · decide

/-- C11, amended: every half-cycle step dumps before it toggles the clock and
evaluates, so a dump shows the module as the previous evaluation left it: in
cycle `i` the dump stamped `2*i` shows the count on entry, the dump stamped
`2*i+1` shows the count produced by the first evaluation, and the count
produced by the second evaluation is the one on entry to cycle `i+1`. In
every run exactly one evaluation has no dump after it: the last one, which
ends the log or is followed by the close only. -/
theorem dump_precedes_evaluation (E : Engine σ) :
    (∀ i p (h : Harness σ), (halfStep E i p h).trace =
      h.trace ++ [Event.traceDump (2 * i + p) h.clk h.rst h.en (E.count h.top),
        Event.evalStep (!h.clk) h.rst h.en]) ∧
    (∀ i, (entry E (i + 1)).trace =
      (entry E i).trace ++
        [Event.traceDump (2 * i) true (entry E i).rst (entry E i).en
            (E.count (entry E i).top),
          Event.evalStep false (entry E i).rst (entry E i).en,
          Event.traceDump (2 * i + 1) false (entry E i).rst (entry E i).en
            (E.count (E.eval (entry E i).top false (entry E i).rst (entry E i).en)),
          Event.evalStep true (entry E i).rst (entry E i).en]) ∧
    (∀ i, (entry E (i + 1)).top =
      E.eval (E.eval (entry E i).top false (entry E i).rst (entry E i).en)
        true (entry E i).rst (entry E i).en) ∧
    undumpedEvals (main E).final.trace = 1 ∧
    (∃ before r e, (main E).final.trace = before ++ [Event.evalStep true r e] ∨
      (main E).final.trace = before ++ [Event.evalStep true r e, Event.traceClose]) := by
  refine ⟨halfStep_trace E, entry_trace_succ E, ?_, main_undumped E, main_ends_with_eval E⟩
  intro i
  rw [entry, cycleBody, (update_frame E i _).2.1, clkLoop_two]
  simp [halfStep, entry_clk]

/-! ## The sequencer invariant -/

/-- The `freeze_counter` part of the update when no transition is taken. -/
theorem update_fc (E : Engine σ) (i : Nat) (h : Harness σ) :
    (h.state = State.COUNTING → E.count h.top ≠ 9 →
      (update E i h).freeze_counter = h.freeze_counter) ∧
    (h.state = State.FREEZING →
      (update E i h).freeze_counter = h.freeze_counter - 1) := by
  constructor
  · intro hs hc
    simp [update, hs, hc]
  · intro hs
    by_cases hf : h.freeze_counter - 1 = 0 <;> simp [update, hs, hf]

/-- On entry to every cycle: COUNTING with `freeze_counter = 0`, or FREEZING
with `freeze_counter` from 1 to 3. -/
theorem entry_seq_inv (E : Engine σ) (n : Nat) :
    ((entry E n).state = State.COUNTING ∧ (entry E n).freeze_counter = 0) ∨
    ((entry E n).state = State.FREEZING ∧ 1 ≤ (entry E n).freeze_counter ∧
      (entry E n).freeze_counter ≤ 3) := by
  induction n with
  | zero => exact Or.inl ⟨rfl, rfl⟩
  | succ n ih =>
    have hseq := update_seq E n (atUpdate E n)
    have hfc := update_fc E n (atUpdate E n)
    rw [(atUpdate_seq E n).1, (atUpdate_seq E n).2, ← entry_succ] at hseq hfc
    rcases ih with ⟨hs, hz⟩ | ⟨hs, h1, h3⟩
    · by_cases hc : countAt E n = 9
      · right
        have := hseq.1 hs hc
        exact ⟨this.1, by rw [this.2]; norm_num, by rw [this.2]⟩
      · left
        exact ⟨hseq.2.1 hs hc, by rw [hfc.1 hs hc, hz]⟩
    · by_cases hf : (entry E n).freeze_counter = 1
      · left
        exact ⟨hseq.2.2.1 hs hf, by rw [hfc.2 hs, hf]; norm_num⟩
      · right
        have := hseq.2.2.2 hs hf
        exact ⟨this.1, by rw [this.2]; omega, by rw [this.2]; omega⟩

/-- C12. Sequencer state invariant: initially and after every cycle, also
where `main` ends, the sequencer is in COUNTING with `freeze_counter = 0` or
in FREEZING with `1 <= freeze_counter <= 3`, so `freeze_counter` is never
negative; the half-cycle steps leave it alone; an update either takes the
COUNTING->FREEZING transition and sets it to 3, or keeps it (COUNTING), or
decrements it by one (FREEZING). -/
theorem sequencer_invariant (E : Engine σ) :
    (∀ n, ((entry E n).state = State.COUNTING ∧ (entry E n).freeze_counter = 0) ∨
      ((entry E n).state = State.FREEZING ∧ 1 ≤ (entry E n).freeze_counter ∧
        (entry E n).freeze_counter ≤ 3)) ∧
    (∀ n, 0 ≤ (entry E n).freeze_counter ∧ 0 ≤ (atUpdate E n).freeze_counter) ∧
    (((main E).final.state = State.COUNTING ∧ (main E).final.freeze_counter = 0) ∨
      ((main E).final.state = State.FREEZING ∧ 1 ≤ (main E).final.freeze_counter ∧
        (main E).final.freeze_counter ≤ 3)) ∧
    (∀ i p (h : Harness σ), (halfStep E i p h).state = h.state ∧
      (halfStep E i p h).freeze_counter = h.freeze_counter) ∧
    (∀ i (h : Harness σ),
      (h.state = State.COUNTING ∧ E.count h.top = 9 ∧
        (update E i h).state = State.FREEZING ∧ (update E i h).freeze_counter = 3) ∨
      (h.state = State.COUNTING ∧ E.count h.top ≠ 9 ∧
        (update E i h).state = State.COUNTING ∧
        (update E i h).freeze_counter = h.freeze_counter) ∨
      (h.state = State.FREEZING ∧
        (update E i h).freeze_counter = h.freeze_counter - 1)) := by
  have hnn : ∀ n, 0 ≤ (entry E n).freeze_counter := by
    intro n
    rcases entry_seq_inv E n with ⟨_, hz⟩ | ⟨_, h1, _⟩ <;> omega
  refine ⟨entry_seq_inv E, fun n => ⟨hnn n, ?_⟩, ?_, fun i p h => ⟨rfl, rfl⟩, ?_⟩
  · rw [(atUpdate_seq E n).2]
    exact hnn n
  · rcases main_cases E with ⟨m, _, _, hmain⟩ | ⟨_, hmain⟩
    · rw [hmain]
      exact entry_seq_inv E (m + 1)
    · rw [hmain]
      exact entry_seq_inv E 300
  · intro i h
    have hseq := update_seq E i h
    have hfc := update_fc E i h
    cases hs : h.state with
    | COUNTING =>
      by_cases hc : E.count h.top = 9
      · exact Or.inl ⟨rfl, hc, hseq.1 hs hc⟩
      · exact Or.inr (Or.inl ⟨rfl, hc, hseq.2.1 hs hc, hfc.1 hs hc⟩)
    | FREEZING => exact Or.inr (Or.inr ⟨rfl, hfc.2 hs⟩)

/-- C13. Reset never reinitialises the sequencer: the state and
`freeze_counter` after an update depend only on the state and
`freeze_counter` before it and on the observed count: two updates, in any
two cycles `i` and `j`, of any two modules, from variables that agree on
these three, agree on them; and the update of cycle 15, where `rst` is set,
takes FREEZING with `freeze_counter = 2` to FREEZING with
`freeze_counter = 1`. -/
theorem reset_never_reinitialises (E : Engine σ) :
    (∀ (τ : Type) (F : Engine τ) (i j : Nat) (h : Harness σ) (g : Harness τ),
      h.state = g.state → h.freeze_counter = g.freeze_counter →
      E.count h.top = F.count g.top →
      (update E i h).state = (update F j g).state ∧
        (update E i h).freeze_counter = (update F j g).freeze_counter) ∧
    (∀ h : Harness σ, h.state = State.FREEZING → h.freeze_counter = 2 →
      (update E 15 h).rst = true ∧ (update E 15 h).state = State.FREEZING ∧
        (update E 15 h).freeze_counter = 1) := by
  constructor
  · intro τ F i j h g hs hf hc
    cases hg : g.state with
    | COUNTING =>
      rw [hg] at hs
      by_cases h9 : F.count g.top = 9
      · have h9' : E.count h.top = 9 := by rw [hc]; exact h9
        simp [update, hs, hg, h9, h9']
      · have h9' : ¬ E.count h.top = 9 := by rw [hc]; exact h9
        simp [update, hs, hg, h9, h9', hf]
    | FREEZING =>
      rw [hg] at hs
      by_cases h0 : g.freeze_counter - 1 = 0
      · have h0' : h.freeze_counter - 1 = 0 := by rw [hf]; exact h0
        simp [update, hs, hg, h0, h0']
      · have h0' : ¬ h.freeze_counter - 1 = 0 := by rw [hf]; exact h0
        simp [update, hs, hg, h0, h0', hf]
  · intro h hs hf
    simp [update, hs, hf]

/-- Witness of C13: cycle 15 on the sample counter against cycle 3 on the
stuck module, both counting with `count = 9`; and cycle 15 from `frozenTwo`. -/
theorem reset_never_reinitialises_witness :
    (atNine.state = (start stuckAtNine).state ∧
      atNine.freeze_counter = (start stuckAtNine).freeze_counter ∧
      sampleCounter.count atNine.top = stuckAtNine.count (start stuckAtNine).top) ∧
    (update sampleCounter 15 atNine).state =
      (update stuckAtNine 3 (start stuckAtNine)).state ∧
    (frozenTwo.state = State.FREEZING ∧ frozenTwo.freeze_counter = 2) ∧
    (update sampleCounter 15 frozenTwo).freeze_counter = 1 :=
  ⟨⟨rfl, rfl, rfl⟩,
    ((reset_never_reinitialises sampleCounter).1 Unit stuckAtNine 15 3 atNine
      (start stuckAtNine) rfl rfl rfl).1,
    ⟨rfl, rfl⟩,
    ((reset_never_reinitialises sampleCounter).2 frozenTwo rfl rfl).2.2⟩

/-- C14. Count is ignored while freezing: two updates of cycle `i` that both
start in FREEZING with the same `freeze_counter`, whatever their modules show
as count, leave the same state, `freeze_counter` and `en`; the update
decrements `freeze_counter` by exactly one and leaves `en = false`, also when
the count is 9, and stays in FREEZING exactly when `freeze_counter` was
not 1. -/
theorem count_ignored_while_freezing {τ : Type} (E : Engine σ) (F : Engine τ) (i : Nat)
    (h : Harness σ) (g : Harness τ)
    (hs : h.state = State.FREEZING) (hg : g.state = State.FREEZING)
    (hf : h.freeze_counter = g.freeze_counter) :
    ((update E i h).state = (update F i g).state ∧
      (update E i h).freeze_counter = (update F i g).freeze_counter ∧
      (update E i h).en = (update F i g).en) ∧
    (update E i h).freeze_counter = h.freeze_counter - 1 ∧
    (update E i h).en = false ∧
    ((update E i h).state = State.FREEZING ↔ h.freeze_counter ≠ 1) := by
  by_cases h0 : g.freeze_counter - 1 = 0
  · have h0' : h.freeze_counter - 1 = 0 := by rw [hf]; exact h0
    have h1 : h.freeze_counter = 1 := by omega
    simp [update, hs, hg, h0, h0', h1]
  · have h0' : ¬ h.freeze_counter - 1 = 0 := by rw [hf]; exact h0
    have h1 : ¬ g.freeze_counter = 1 := by omega
    simp [update, hs, hg, h0, h1, hf]

/-- Witness of C14: `frozenAtNine` shows `count = 9`, `frozenTwo` shows 4. -/
theorem count_ignored_while_freezing_witness :
    (frozenAtNine.state = State.FREEZING ∧ frozenTwo.state = State.FREEZING ∧
      frozenAtNine.freeze_counter = frozenTwo.freeze_counter ∧
      sampleCounter.count frozenAtNine.top = 9 ∧ sampleCounter.count frozenTwo.top = 4) ∧
    (update sampleCounter 20 frozenAtNine).state = (update sampleCounter 20 frozenTwo).state ∧
    (update sampleCounter 20 frozenAtNine).freeze_counter = 2 - 1 :=
  ⟨⟨rfl, rfl, rfl, rfl, rfl⟩,
    (count_ignored_while_freezing sampleCounter sampleCounter 20 frozenAtNine frozenTwo
      rfl rfl rfl).1.1,
    (count_ignored_while_freezing sampleCounter sampleCounter 20 frozenAtNine frozenTwo
      rfl rfl rfl).2.1⟩

/-! ## Input latency -/

/-- The inputs that the update of cycle `i` writes. -/
theorem update_inputs (E : Engine σ) (i : Nat) (h : Harness σ) :
    (update E i h).rst = (decide (i < 2) || decide (i = 15)) ∧
      (i ≤ 4 → (update E i h).en = false) := by
  constructor
  · unfold update
    cases hst : h.state
    · by_cases hc : E.count h.top = 9 <;> simp [hc]
    · by_cases hf : h.freeze_counter - 1 = 0 <;> simp [hf]
  · intro hi
    have hn : ¬ 4 < i := by omega
    unfold update
    cases hst : h.state
    · by_cases hc : E.count h.top = 9 <;> simp [hc, hn]
    · by_cases hf : h.freeze_counter - 1 = 0 <;> simp [hf]

/-- C15. One-cycle input latency: the two evaluations of cycle `i` see the
`rst` and `en` in force on entry to the cycle, which are the initial
`rst = 1`, `en = 0` for `i = 0` and the values written by the update of
cycle `i-1` otherwise; so the `rst` they see is true exactly for `i` in
0, 1, 2, 16, and the `en` they see is false for every `i <= 5`. -/
theorem input_latency (E : Engine σ) :
    ((entry E 0).rst = true ∧ (entry E 0).en = false) ∧
    (∀ i, (entry E (i + 1)).rst = (update E i (atUpdate E i)).rst ∧
      (entry E (i + 1)).en = (update E i (atUpdate E i)).en) ∧
    (∀ i, (entry E (i + 1)).trace =
      (entry E i).trace ++
        [Event.traceDump (2 * i) true (entry E i).rst (entry E i).en
            (E.count (entry E i).top),
          Event.evalStep false (entry E i).rst (entry E i).en,
          Event.traceDump (2 * i + 1) false (entry E i).rst (entry E i).en
            (E.count (E.eval (entry E i).top false (entry E i).rst (entry E i).en)),
          Event.evalStep true (entry E i).rst (entry E i).en]) ∧
    (∀ i, (entry E i).rst = true ↔ i = 0 ∨ i = 1 ∨ i = 2 ∨ i = 16) ∧
    (∀ i, i ≤ 5 → (entry E i).en = false) := by
  refine ⟨⟨rfl, rfl⟩, fun i => ⟨rfl, rfl⟩, entry_trace_succ E, ?_, ?_⟩
  · intro i
    cases i with
    | zero => simp [entry, start]
    | succ k =>
      rw [entry_succ, (update_inputs E k _).1]
      simp
      omega
  · intro i hi
    cases i with
    | zero => rfl
    | succ k =>
      rw [entry_succ]
      exact (update_inputs E k _).2 (by omega)

/-- Witness of C15: cycle 5 of the run of the sample counter. -/
theorem input_latency_witness :
    5 ≤ 5 ∧ (entry sampleCounter 5).en = false :=
  ⟨Nat.le_refl 5, (input_latency sampleCounter).2.2.2.2 5 (Nat.le_refl 5)⟩

/-! ## Spacing of the freezes -/

/-- After a transition in cycle `i` the sequencer is in FREEZING on entry to
the next three cycles. -/
theorem after_transition (E : Engine σ) (i : Nat) (ht : transitionAt E i = true) :
    (entry E (i + 1)).state = State.FREEZING ∧
    (entry E (i + 2)).state = State.FREEZING ∧
    (entry E (i + 3)).state = State.FREEZING := by
  obtain ⟨hs, hc⟩ := (transitionAt_iff E i).mp ht
  have h1 := update_seq E i (atUpdate E i)
  rw [(atUpdate_seq E i).1, ← entry_succ] at h1
  obtain ⟨s1, f1⟩ := h1.1 hs hc
  have h2 := update_seq E (i + 1) (atUpdate E (i + 1))
  rw [(atUpdate_seq E (i + 1)).1, (atUpdate_seq E (i + 1)).2, ← entry_succ] at h2
  obtain ⟨s2, f2⟩ := h2.2.2.2 s1 (by rw [f1]; norm_num)
  have h3 := update_seq E (i + 2) (atUpdate E (i + 2))
  rw [(atUpdate_seq E (i + 2)).1, (atUpdate_seq E (i + 2)).2, ← entry_succ] at h3
  obtain ⟨s3, _⟩ := h3.2.2.2 s2 (by rw [f2, f1]; norm_num)
  exact ⟨s1, s2, s3⟩

theorem transitions_succ (E : Engine σ) (n : Nat) :
    transitions E (n + 1) = transitions E n + (if transitionAt E n = true then 1 else 0) := by
  simp [transitions, List.range_succ, List.countP_append, List.countP_cons]

/-- Each transition uses four cycles: the one that takes it and the three of
the window, of which `freeze_counter` are still to come. -/
theorem transitions_bound (E : Engine σ) (n : Nat) :
    4 * (transitions E n : Int) ≤ (n : Int) + (entry E n).freeze_counter := by
  induction n with
  | zero => simp [transitions, entry, start]
  | succ n ih =>
    have hseq := update_seq E n (atUpdate E n)
    have hfc := update_fc E n (atUpdate E n)
    rw [(atUpdate_seq E n).1, (atUpdate_seq E n).2, ← entry_succ] at hseq hfc
    have hiff := transitionAt_iff E n
    rw [transitions_succ]
    rcases entry_seq_inv E n with ⟨hs, hz⟩ | ⟨hs, h1, h3⟩
    · by_cases hc : countAt E n = 9
      · have ht : transitionAt E n = true := hiff.mpr ⟨hs, hc⟩
        rw [(hseq.1 hs hc).2]
        simp only [ht, if_true]
        push_cast
        omega
      · have ht : ¬ transitionAt E n = true := fun h => hc (hiff.mp h).2
        rw [hfc.1 hs hc]
        simp only [ht, if_false]
        push_cast
        omega
    · have ht : ¬ transitionAt E n = true := fun h => by
        have := (hiff.mp h).1
        rw [hs] at this
        exact State.noConfusion this
      rw [hfc.2 hs]
      simp only [ht, if_false]
      push_cast
      omega

/-- C16. Minimum spacing of freezes: two COUNTING->FREEZING transitions are
taken at cycles at least 4 apart; the first `n` cycles take at most
`(n + 3) / 4` of them, so 300 cycles take at most 75; and with the count
stuck at 9 the 300 cycles take exactly 75. -/
theorem freeze_spacing (E : Engine σ) :
    (∀ i j, i < j → transitionAt E i = true → transitionAt E j = true → i + 4 ≤ j) ∧
    (∀ n, transitions E n ≤ (n + 3) / 4) ∧
    transitions E 300 ≤ 75 ∧
    transitions stuckAtNine 300 = 75 := by
  have hb : ∀ n, transitions E n ≤ (n + 3) / 4 := by
    intro n
    have h1 := transitions_bound E n
    have h2 : (entry E n).freeze_counter ≤ 3 := by
      rcases entry_seq_inv E n with ⟨_, hz⟩ | ⟨_, _, h3⟩ <;> omega
    omega
  refine ⟨?_, hb, hb 300, by decide⟩
  intro i j hij hi hj
  obtain ⟨s1, s2, s3⟩ := after_transition E i hi
  have hc := ((transitionAt_iff E j).mp hj).1
  by_contra hlt
  have hcases : j = i + 1 ∨ j = i + 2 ∨ j = i + 3 := by omega
  rcases hcases with h | h | h <;> subst h
  · rw [s1] at hc
    exact State.noConfusion hc
  · rw [s2] at hc
    exact State.noConfusion hc
  · rw [s3] at hc
    exact State.noConfusion hc

/-- Witness of C16: the sample counter takes transitions at cycles 14 and 27. -/
theorem freeze_spacing_witness :
    (14 < 27 ∧ transitionAt sampleCounter 14 = true ∧
      transitionAt sampleCounter 27 = true) ∧ 14 + 4 ≤ 27 :=
  ⟨by decide,
    (freeze_spacing sampleCounter).1 14 27 (by decide) (by decide) (by decide)⟩

end CounterTb
